import Mathlib

/-!
Verification development for the `reniced` daemon core
(detection–match–adjust pipeline).

Rust strings (`&str` / `String`) are modelled as `List Char`; byte indices
into UTF-8 strings become character indices, which is faithful for the
slicing and prefix operations the code performs.  Machine integers that the
code never overflows (pids, nice values) are modelled as `Nat` / `Int`.
Fallible operations are modelled with `Option` / `Except`, and the OS is an
explicit state threaded through the adjuster.
-/

namespace Reniced

/-! ### String primitives mirroring the Rust standard library -/

/-- Rust `str::trim_start`: drop leading whitespace characters. -/
def trimStart : List Char → List Char
  | [] => []
  | c :: cs => if c.isWhitespace then trimStart cs else c :: cs

/-- Rust `str::find(pattern)`: index of the first occurrence of `pat` as a
contiguous substring of the haystack (`some 0` for the empty pattern). -/
def findSub (pat : List Char) : List Char → Option Nat
  | [] => if pat.isPrefixOf [] then some 0 else none
  | c :: cs =>
    if pat.isPrefixOf (c :: cs) then some 0
    else (findSub pat cs).map (· + 1)

/-- Split a character list at every character satisfying `p`
(separators are dropped; empty chunks are kept). -/
def splitCh (p : Char → Bool) : List Char → List (List Char)
  | [] => [[]]
  | c :: cs =>
    let r := splitCh p cs
    if p c then [] :: r
    else
      match r with
      | [] => [[c]]
      | w :: ws => (c :: w) :: ws

/-- Rust `str::split_whitespace`: whitespace-separated fields, empty
fields removed. -/
def splitWhitespace (s : List Char) : List (List Char) :=
  (splitCh Char.isWhitespace s).filter (fun w => w ≠ [])

/-- Rust `str::lines`: split on a newline character, removing one trailing
carriage return from each line. -/
def linesOf (s : List Char) : List (List Char) :=
  (splitCh (fun c => c = '\n') s).map
    (fun l => if l.getLast? = some '\r' then l.dropLast else l)

/-- Rust `str::parse::<u32>`: an optional leading `+`, then at least one
ASCII digit, and the value must fit in 32 bits. -/
def parseU32 (s : List Char) : Option Nat :=
  let digits := match s with
    | '+' :: rest => rest
    | other => other
  if digits = [] then none
  else if digits.all Char.isDigit then
    let v := digits.foldl (fun a c => a * 10 + (c.toNat - 48)) 0
    if v ≤ 4294967295 then some v else none
  else none

/-! ### Configuration data model (`src/config.rs`) -/

/-- Embedding of `MatcherConfig` from `config.rs`: the matching kind (`type` in the
source), an optional explicit match string, and the strip-path flag. -/
structure MatcherConfig where
  type : List Char
  match_string : Option (List Char)
  strip_path : Option Bool
deriving DecidableEq

/-- Embedding of `ProcessConfig` from `config.rs`: one rule of the ordered rule set. -/
structure ProcessConfig where
  name : List Char
  owner : Option (List Char)
  bin : List Char
  nice : Int
  matcher : MatcherConfig
deriving DecidableEq

/-- The one recognized matcher kind. -/
def simpleKind : List Char := "simple".data

/-! ### Rule matcher (`src/matcher.rs`) -/

/-- Embedding of `ProcessMatcher::get_pattern`: the explicit `match_string` when set,
otherwise the rule's `bin` with one trailing space appended. -/
def get_pattern (process_config : ProcessConfig) : List Char :=
  match process_config.matcher.match_string with
  | some match_string => match_string
  | none => process_config.bin ++ [' ']

/-- Embedding of `ProcessMatcher::strip_path_from_command`: slice the command at the
first occurrence of the pattern and trim leading whitespace; if the pattern
does not occur, return the command unchanged. -/
def strip_path_from_command (cmd : List Char) (pattern : List Char) : List Char :=
  match findSub pattern cmd with
  | some first_space_index => trimStart (cmd.drop first_space_index)
  | none => cmd

/-- Embedding of `ProcessMatcher::prepare_command`: apply path stripping exactly when
`strip_path` is `Some true` (absent defaults to `false`). -/
def prepare_command (cmd : List Char) (pattern : List Char)
    (matcher : MatcherConfig) : List Char :=
  let strip := matcher.strip_path.getD false
  if strip then strip_path_from_command cmd pattern else cmd

/-- Embedding of `ProcessMatcher::match_simple`: prepare the command, then test whether
it starts with the pattern. -/
def match_simple (cmd : List Char) (pattern : List Char)
    (matcher : MatcherConfig) : Bool :=
  let cmd_to_check := prepare_command cmd pattern matcher
  pattern.isPrefixOf cmd_to_check

/-- Embedding of `ProcessMatcher::is_command_matched`: owner filter, pattern
resolution, then dispatch on the matcher kind (only `"simple"` is
implemented; anything else never matches). -/
def is_command_matched (cmd : List Char) (process_owner : List Char)
    (process_config : ProcessConfig) : Bool :=
  let ownerOk :=
    match process_config.owner with
    | some config_owner => config_owner == process_owner
    | none => true
  if ownerOk then
    let matcher := process_config.matcher
    let pattern := get_pattern process_config
    if matcher.type = simpleKind then match_simple cmd pattern matcher
    else false
  else false

/-- Embedding of `ProcessMatcher::match_command`: walk the rule list in declared order
and return the first rule that matches, or `none`. -/
def match_command (rules : List ProcessConfig) (command : List Char)
    (process_owner : List Char) : Option ProcessConfig :=
  match rules with
  | [] => none
  | process_config :: rest =>
    if is_command_matched command process_owner process_config then
      some process_config
    else match_command rest command process_owner

/-! ### Owner resolution (`src/monitor.rs`, `get_owner_for_pid`)

The `/proc/[pid]/status` file is modelled as `Option (List Char)` (`none`
when the file cannot be opened or read), and the user database
(`nix::unistd::User::from_uid`) as a function from a uid to
`Except Unit (Option (List Char))`: `.error` for a lookup error,
`.ok none` for "no named user found for this uid", `.ok (some name)` for a
named user. -/

/-- The uid extraction inside `get_owner_for_pid`: the line starting with
`Uid:`, its second whitespace-separated token, parsed as `u32`. -/
def extract_uid (contents : List Char) : Option Nat := do
  let uid_line ← (linesOf contents).find? (fun line => ("Uid:".data).isPrefixOf line)
  let uid_str ← (splitWhitespace uid_line).get? 1
  parseU32 uid_str

/-- Embedding of `get_owner_for_pid` from `monitor.rs`: read the status file, extract
the uid, look it up in the user database; a named user yields its name, a
nameless identity yields `"root"`, everything else yields `none`. -/
def get_owner_for_pid (status : Option (List Char))
    (db : Nat → Except Unit (Option (List Char))) : Option (List Char) :=
  match status with
  | none => none
  | some contents =>
    match extract_uid contents with
    | some uid =>
      match db uid with
      | .ok (some u) => some u
      | .ok none => some "root".data
      | .error _ => none
    | none => none

/-! ### Detection loop (`src/monitor.rs`, `event_loop`)

One iteration of the infinite `loop` is modelled as a pure function of the
`previous_pids` state and the result of this cycle's process enumeration.
Pids are `Nat` (the code stores them as decimal strings and parses them
back before adjusting; nothing in the loop depends on the textual form).
Per-pid metadata and the rule set are supplied by an environment so that
per-pid dispatch outcomes are explicit. -/

/-- The environment the dispatch phase consults: `/proc/[pid]/cmdline`,
the resolved owner, and the merged rule set. -/
structure PidEnv where
  cmdOf : Nat → Option (List Char)
  ownerOf : Nat → Option (List Char)
  rules : List ProcessConfig

/-- Observable per-pid events of one dispatch, mirroring the log calls and
the adjuster invocation in the loop body. -/
inductive LoopEvent
  | warnNoCmd (pid : Nat)
  | warnNoOwner (pid : Nat)
  | matchedDebug (pid : Nat)
  | adjustCall (pid : Nat) (nice : Int)
deriving DecidableEq

/-- The pid an event concerns. -/
def LoopEvent.pidOf : LoopEvent → Nat
  | .warnNoCmd pid => pid
  | .warnNoOwner pid => pid
  | .matchedDebug pid => pid
  | .adjustCall pid _ => pid

/-- The body of the `for pid in added` loop: fetch command and owner (warn
and skip on failure), run the matcher, and on a match invoke the adjuster
with the rule's nice value. -/
def dispatch_pid (env : PidEnv) (pid : Nat) : List LoopEvent :=
  match env.cmdOf pid with
  | none => [.warnNoCmd pid]
  | some command =>
    match env.ownerOf pid with
    | none => [.warnNoOwner pid]
    | some owner =>
      match match_command env.rules command owner with
      | none => []
      | some process_config =>
        [.matchedDebug pid, .adjustCall pid process_config.nice]

/-- The `HashSet::difference(&previous)` iterator collected into the `added` set:
the elements of `current` not contained in `previous`. -/
def hashset_difference (current previous : Finset Nat) : Finset Nat :=
  current.filter (fun pid => pid ∉ previous)

/-- The observable outcome of one cycle of `event_loop`: which pids were
handed to the dispatch phase, the events they produced, the state
(`previous_pids`) carried to the next cycle, whether the cycle reached the
`tokio::time::sleep` call, and whether it reported an enumeration error. -/
structure CycleOut where
  dispatched : Finset Nat
  events : List LoopEvent
  newPrevious : Finset Nat
  slept : Bool
  reportedError : Bool
deriving DecidableEq

/-- One iteration of the `loop` in `event_loop`.  On enumeration failure
the code logs the error and executes `continue`, which jumps to the next
iteration: the diff, the dispatch, the `previous_pids` assignment and the
sleep are all skipped.  On success it dispatches every added pid, assigns
`previous_pids = current_pids`, and sleeps. -/
def event_loop_cycle (env : PidEnv) (previous_pids : Finset Nat)
    (scan : Except Unit (Finset Nat)) : CycleOut :=
  match scan with
  | .error _ =>
    { dispatched := ∅
      events := []
      newPrevious := previous_pids
      slept := false
      reportedError := true }
  | .ok current_pids =>
    let added := hashset_difference current_pids previous_pids
    { dispatched := added
      events := (added.sort (· ≤ ·)).flatMap (dispatch_pid env)
      newPrevious := current_pids
      slept := true
      reportedError := false }

/-- Several consecutive cycles, threading `previous_pids`. -/
def event_loop_run (env : PidEnv) (previous_pids : Finset Nat) :
    List (Except Unit (Finset Nat)) → List CycleOut
  | [] => []
  | scan :: rest =>
    let out := event_loop_cycle env previous_pids scan
    out :: event_loop_run env out.newPrevious rest

/-- Decidable side condition used to state pid-lifetime claims: a scan
result keeps `pid` alive when it is an error (the snapshot is unchanged)
or a successful snapshot containing `pid`. -/
def scanKeeps (pid : Nat) : Except Unit (Finset Nat) → Bool
  | .error _ => true
  | .ok current => pid ∈ current

/-! ### Priority adjuster (`src/adjuster.rs`)

The OS is an explicit state: which pids `procfs::process::Process::new`
can open, which have a readable `stat`, their current nice values, and
whether `libc::setpriority` succeeds for them.  Each adjuster function
returns the updated OS state, the list of issued mutation calls, and the
emitted log events. -/

/-- Log severity levels of the observability sink. -/
inductive Sev
  | deb
  | info
  | warn
  | err
deriving DecidableEq

/-- The log events emitted along the adjuster's code paths, one
constructor per `debug!`/`info!`/`warn!`/`error!` call site. -/
inductive AdjEvent
  | debStarting (pid : Nat)
  | debFetchingProcess (pid : Nat)
  | debFetchingNice (pid : Nat)
  | debCurrentVsExpected (pid : Nat) (cur exp : Int)
  | infoMismatch (pid : Nat) (cur exp : Int)
  | debAdjusting (pid : Nat)
  | debAlreadyCorrect (pid : Nat) (cur : Int)
  | debAttemptSet (pid : Nat) (nv : Int)
  | infoAdjusted (pid : Nat) (nv : Int)
  | errSetFailed (pid : Nat)
  | warnCheckFailed (pid : Nat)
  | debFinished (pid : Nat)
deriving DecidableEq

/-- Severity of each adjuster log event. -/
def AdjEvent.sev : AdjEvent → Sev
  | .debStarting _ => .deb
  | .debFetchingProcess _ => .deb
  | .debFetchingNice _ => .deb
  | .debCurrentVsExpected _ _ _ => .deb
  | .infoMismatch _ _ _ => .info
  | .debAdjusting _ => .deb
  | .debAlreadyCorrect _ _ => .deb
  | .debAttemptSet _ _ => .deb
  | .infoAdjusted _ _ => .info
  | .errSetFailed _ => .err
  | .warnCheckFailed _ => .warn
  | .debFinished _ => .deb

/-- One OS priority-mutation call (`libc::setpriority`). -/
structure OsCall where
  pid : Nat
  nice : Int
deriving DecidableEq

/-- The OS state visible to the adjuster. -/
structure OsState where
  alive : Nat → Bool
  statOk : Nat → Bool
  nice : Nat → Int
  setOk : Nat → Bool

/-- Embedding of `libc::setpriority(PRIO_PROCESS, pid, nv)`: result code (0 on
success) and the updated OS state. -/
def os_setpriority (s : OsState) (pid : Nat) (nv : Int) : Int × OsState :=
  if s.setOk pid then
    (0, { s with nice := fun q => if q = pid then nv else s.nice q })
  else (-1, s)

/-- Embedding of `Adjuster::get_process` (`Process::new(pid)`). -/
def get_process (s : OsState) (pid : Nat) : Except Unit Unit :=
  if s.alive pid then .ok () else .error ()

/-- Embedding of `Adjuster::get_current_nice_value` (`process.stat().nice`). -/
def get_current_nice_value (s : OsState) (pid : Nat) : Except Unit Int :=
  if s.statOk pid then .ok (s.nice pid) else .error ()

/-- Embedding of `Adjuster::adjust_nice_value`: issue the `setpriority` call; `Ok` on
result 0 with an info event, otherwise log and return the error. -/
def adjust_nice_value (s : OsState) (pid : Nat) (nice_value : Int) :
    OsState × List OsCall × List AdjEvent × Except Unit Unit :=
  let r := os_setpriority s pid nice_value
  if r.1 = 0 then
    (r.2, [⟨pid, nice_value⟩],
      [.debAttemptSet pid nice_value, .infoAdjusted pid nice_value], .ok ())
  else
    (r.2, [⟨pid, nice_value⟩],
      [.debAttemptSet pid nice_value, .errSetFailed pid], .error ())

/-- Embedding of `Adjuster::try_check_and_adjust_nice_value`: open the process, read
its current nice value, and mutate only when it differs from the
configured target; every failure propagates as an error. -/
def try_check_and_adjust_nice_value (s : OsState) (pid : Nat)
    (process_config : ProcessConfig) :
    OsState × List OsCall × List AdjEvent × Except Unit Unit :=
  match get_process s pid with
  | .error _ => (s, [], [.debFetchingProcess pid], .error ())
  | .ok _ =>
    match get_current_nice_value s pid with
    | .error _ =>
      (s, [], [.debFetchingProcess pid, .debFetchingNice pid], .error ())
    | .ok current_nice =>
      let expected_nice := process_config.nice
      let evs : List AdjEvent :=
        [.debFetchingProcess pid, .debFetchingNice pid,
         .debCurrentVsExpected pid current_nice expected_nice]
      if current_nice ≠ expected_nice then
        let a := adjust_nice_value s pid expected_nice
        (a.1, a.2.1,
          evs ++ [.infoMismatch pid current_nice expected_nice,
            .debAdjusting pid] ++ a.2.2.1,
          a.2.2.2)
      else
        (s, [], evs ++ [.debAlreadyCorrect pid current_nice], .ok ())

/-- Embedding of `Adjuster::check_and_adjust_nice_value`: the public entry point; it
swallows the inner error (logging a warning) and always returns. -/
def check_and_adjust_nice_value (s : OsState) (pid : Nat)
    (process_config : ProcessConfig) :
    OsState × List OsCall × List AdjEvent :=
  let t := try_check_and_adjust_nice_value s pid process_config
  let tailEvs : List AdjEvent :=
    match t.2.2.2 with
    | .error _ => [.warnCheckFailed pid, .debFinished pid]
    | .ok _ => [.debFinished pid]
  (t.1, t.2.1, [.debStarting pid] ++ t.2.2.1 ++ tailEvs)

/-! ### Helper lemmas about the string primitives -/

/-- The boolean `isPrefixOf` agrees with the mathematical prefix relation. -/
lemma isPrefixOf_iff_append (p l : List Char) :
    p.isPrefixOf l = true ↔ ∃ t, l = p ++ t := by
  induction p generalizing l with
  | nil => simp [List.isPrefixOf]
  | cons c p ih =>
    cases l with
    | nil => simp [List.isPrefixOf]
    | cons b bs =>
      simp only [List.isPrefixOf, Bool.and_eq_true, beq_iff_eq, ih,
        List.cons_append, List.cons.injEq]
      constructor
      · rintro ⟨hcb, t, ht⟩
        exact ⟨t, hcb.symm, ht⟩
      · rintro ⟨t, hcb, ht⟩
        exact ⟨hcb.symm, t, ht⟩

/-- A prefix found by `findSub` really occurs there, and nowhere earlier. -/
lemma findSub_eq_some (pat cmd : List Char) (i : Nat)
    (h : findSub pat cmd = some i) :
    pat.isPrefixOf (cmd.drop i) = true ∧
      ∀ j, j < i → pat.isPrefixOf (cmd.drop j) = false := by
  induction cmd generalizing i with
  | nil =>
    by_cases hp : pat.isPrefixOf ([] : List Char) = true
    · simp [findSub, hp] at h
      subst h
      exact ⟨hp, fun j hj => absurd hj (Nat.not_lt_zero j)⟩
    · simp [findSub, Bool.of_not_eq_true hp] at h
  | cons c cs ih =>
    by_cases hp : pat.isPrefixOf (c :: cs) = true
    · simp [findSub, hp] at h
      subst h
      exact ⟨hp, fun j hj => absurd hj (Nat.not_lt_zero j)⟩
    · have hp' : pat.isPrefixOf (c :: cs) = false := Bool.of_not_eq_true hp
      simp [findSub, hp'] at h
      obtain ⟨k, hk, hki⟩ := h
      obtain ⟨hpre, hmin⟩ := ih k hk
      subst hki
      refine ⟨by simpa using hpre, ?_⟩
      intro j hj
      cases j with
      | zero => simpa using hp'
      | succ j' =>
        have : j' < k := Nat.lt_of_succ_lt_succ hj
        simpa using hmin j' this

/-- When `findSub` fails, the pattern occurs nowhere. -/
lemma findSub_eq_none (pat cmd : List Char)
    (h : findSub pat cmd = none) :
    ∀ j, pat.isPrefixOf (cmd.drop j) = false := by
  induction cmd with
  | nil =>
    intro j
    by_cases hp : pat.isPrefixOf ([] : List Char) = true
    · simp [findSub, hp] at h
    · simpa using Bool.of_not_eq_true hp
  | cons c cs ih =>
    intro j
    by_cases hp : pat.isPrefixOf (c :: cs) = true
    · simp [findSub, hp] at h
    · have hp' : pat.isPrefixOf (c :: cs) = false := Bool.of_not_eq_true hp
      simp [findSub, hp'] at h
      cases j with
      | zero => simpa using hp'
      | succ j' => simpa using ih h j'

/-- Completeness of `findSub`: the first occurrence is found. -/
lemma findSub_complete (pat cmd : List Char) (i : Nat)
    (hpre : pat.isPrefixOf (cmd.drop i) = true)
    (hmin : ∀ j, j < i → pat.isPrefixOf (cmd.drop j) = false) :
    findSub pat cmd = some i := by
  cases h : findSub pat cmd with
  | none =>
    have := findSub_eq_none pat cmd h i
    rw [hpre] at this
    exact absurd this (by simp)
  | some k =>
    obtain ⟨hk, hkmin⟩ := findSub_eq_some pat cmd k h
    rcases Nat.lt_trichotomy k i with hlt | heq | hgt
    · have := hmin k hlt
      rw [hk] at this
      exact absurd this (by simp)
    · rw [heq]
    · have := hkmin i hgt
      rw [hpre] at this
      exact absurd this (by simp)

/-- The function `trimStart` is the identity on a list not starting with whitespace. -/
lemma trimStart_eq_self (l : List Char)
    (h : ∀ c, l.head? = some c → c.isWhitespace = false) :
    trimStart l = l := by
  cases l with
  | nil => rfl
  | cons c cs =>
    have : c.isWhitespace = false := h c rfl
    simp [trimStart, this]

/-! ### Claim theorems: rule matcher -/

/-- Claim C5: with `strip_path` enabled, the comparable command is the
suffix of the command line starting at the first occurrence of the
pattern, with leading whitespace trimmed; when the pattern does not occur,
the comparable command is the original command line unchanged. -/
theorem strip_path_comparable_command (cmd pattern : List Char)
    (m : MatcherConfig) (hstrip : m.strip_path = some true) :
    (∀ i, pattern.isPrefixOf (cmd.drop i) = true →
      (∀ j, j < i → pattern.isPrefixOf (cmd.drop j) = false) →
      prepare_command cmd pattern m = trimStart (cmd.drop i))
    ∧ ((∀ j, pattern.isPrefixOf (cmd.drop j) = false) →
      prepare_command cmd pattern m = cmd) := by
  constructor
  · intro i hpre hmin
    have hf := findSub_complete pattern cmd i hpre hmin
    simp [prepare_command, hstrip, strip_path_from_command, hf]
  · intro hnone
    have hf : findSub pattern cmd = none := by
      cases h : findSub pattern cmd with
      | none => rfl
      | some k =>
        have hk := (findSub_eq_some pattern cmd k h).1
        rw [hnone k] at hk
        exact absurd hk (by simp)
    simp [prepare_command, hstrip, strip_path_from_command, hf]

/-- Claim C5 witness: `"test "` first occurs at index 9 of
`"/usr/bin/test --x"`. -/
theorem strip_path_comparable_command_witness :
    prepare_command "/usr/bin/test --x".data "test ".data
        ⟨"simple".data, none, some true⟩ =
      trimStart (("/usr/bin/test --x".data).drop 9) :=
  (strip_path_comparable_command "/usr/bin/test --x".data "test ".data
    ⟨"simple".data, none, some true⟩ rfl).1 9 (by decide) (by decide)

/-- Claim C10: for a pattern not starting with whitespace, a simple match
with `strip_path` enabled succeeds exactly when the pattern occurs
somewhere in the command line. -/
theorem simple_strip_match_iff_occurs (cmd pattern : List Char)
    (m : MatcherConfig) (hstrip : m.strip_path = some true)
    (hpat : ∀ c, pattern.head? = some c → c.isWhitespace = false) :
    match_simple cmd pattern m = true ↔
      ∃ i, pattern.isPrefixOf (cmd.drop i) = true := by
  show pattern.isPrefixOf (prepare_command cmd pattern m) = true ↔ _
  constructor
  · intro h
    cases hf : findSub pattern cmd with
    | some i => exact ⟨i, (findSub_eq_some pattern cmd i hf).1⟩
    | none =>
      have hprep : prepare_command cmd pattern m = cmd := by
        simp [prepare_command, hstrip, strip_path_from_command, hf]
      rw [hprep] at h
      exact ⟨0, by simpa using h⟩
  · rintro ⟨i, hi⟩
    cases hf : findSub pattern cmd with
    | none =>
      have := findSub_eq_none pattern cmd hf i
      rw [hi] at this
      exact absurd this (by simp)
    | some k =>
      have hk := (findSub_eq_some pattern cmd k hf).1
      have hprep : prepare_command cmd pattern m = trimStart (cmd.drop k) := by
        simp [prepare_command, hstrip, strip_path_from_command, hf]
      rw [hprep]
      cases hp : pattern with
      | nil => simp [List.isPrefixOf]
      | cons c p2 =>
        rw [hp] at hk
        have hhead : (cmd.drop k).head? = some c := by
          obtain ⟨t, ht⟩ := (isPrefixOf_iff_append (c :: p2) (cmd.drop k)).1 hk
          rw [ht]
          rfl
        have htrim : trimStart (cmd.drop k) = cmd.drop k := by
          apply trimStart_eq_self
          intro c2 hc2
          rw [hhead] at hc2
          injection hc2 with hcc
          rw [← hcc]
          exact hpat c (by rw [hp]; rfl)
        rw [htrim]
        exact hk

/-- Claim C10 witness: `"foo"` occurs at index 9 of
`"/usr/bin/foo --flag"`, so the stripped simple match succeeds. -/
theorem simple_strip_match_iff_occurs_witness :
    match_simple "/usr/bin/foo --flag".data "foo".data
      ⟨"simple".data, none, some true⟩ = true :=
  (simple_strip_match_iff_occurs "/usr/bin/foo --flag".data "foo".data
      ⟨"simple".data, none, some true⟩ rfl
      (fun c hc => by
        have hc2 : some 'f' = some c := hc
        injection hc2 with h
        rw [← h]
        rfl)).mpr
    ⟨9, by decide⟩

/-- Claim C6: a rule with matcher kind `"simple"` (whose owner filter
passes) matches exactly when the possibly path-normalized command line
starts with the resolved pattern as a literal prefix, and a rule of any
other kind never matches, regardless of command line and owner. -/
theorem simple_kind_dispatch (cmd owner : List Char) (pc : ProcessConfig) :
    (pc.matcher.type ≠ simpleKind → is_command_matched cmd owner pc = false)
    ∧ (pc.matcher.type = simpleKind →
      (pc.owner = none ∨ pc.owner = some owner) →
      (is_command_matched cmd owner pc = true ↔
        ∃ t, prepare_command cmd (get_pattern pc) pc.matcher =
          get_pattern pc ++ t)) := by
  constructor
  · intro hne
    simp only [is_command_matched]
    rw [if_neg hne]
    cases pc.owner <;> simp
  · intro hty howner
    have hok :
        (match pc.owner with
          | some config_owner => config_owner == owner
          | none => true) = true := by
      rcases howner with h | h <;> simp [h]
    simp only [is_command_matched, hok, if_true, if_pos hty]
    rw [match_simple]
    exact isPrefixOf_iff_append (get_pattern pc) (prepare_command cmd (get_pattern pc) pc.matcher)

/-- Rule fixtures used by concrete witnesses. -/
def pcRegex : ProcessConfig :=
  ⟨"rx".data, none, "/bin/x".data, 0, ⟨"regex".data, some "x".data, none⟩⟩

def pcSimple : ProcessConfig :=
  ⟨"sx".data, none, "/bin/x".data, 4, ⟨"simple".data, some "/bin/x ".data, none⟩⟩

/-- Claim C6 witness: the `"regex"` rule never matches and the `"simple"`
rule matches a command starting with its pattern. -/
theorem simple_kind_dispatch_witness :
    is_command_matched "/bin/x -a".data "root".data pcRegex = false ∧
    is_command_matched "/bin/x -a".data "root".data pcSimple = true :=
  ⟨(simple_kind_dispatch "/bin/x -a".data "root".data pcRegex).1 (by decide),
   ((simple_kind_dispatch "/bin/x -a".data "root".data pcSimple).2 rfl
      (Or.inl rfl)).mpr ⟨"-a".data, by decide⟩⟩

/-- Claim C7: `match_command` walks the rule list in declared order and
returns the first rule for which `is_command_matched` holds; it returns
`none` exactly when no rule matches. -/
theorem ordered_first_match (rules : List ProcessConfig)
    (command owner : List Char) :
    (match_command rules command owner = none ↔
      ∀ pc ∈ rules, is_command_matched command owner pc = false)
    ∧ (∀ pc, match_command rules command owner = some pc →
      ∃ i, i < rules.length ∧ rules[i]? = some pc ∧
        is_command_matched command owner pc = true ∧
        ∀ j, j < i → ∀ q, rules[j]? = some q →
          is_command_matched command owner q = false) := by
  induction rules with
  | nil =>
    refine ⟨by simp [match_command], ?_⟩
    intro pc h
    simp [match_command] at h
  | cons r rest ih =>
    by_cases hr : is_command_matched command owner r = true
    · constructor
      · constructor
        · intro h
          rw [match_command, if_pos hr] at h
          exact absurd h (by simp)
        · intro h
          have hx := h r (List.mem_cons_self r rest)
          rw [hr] at hx
          exact absurd hx (by simp)
      · intro pc h
        rw [match_command, if_pos hr] at h
        injection h with hpc
        subst hpc
        exact ⟨0, Nat.zero_lt_succ _, by simp, hr,
          fun j hj => absurd hj (Nat.not_lt_zero j)⟩
    · have hr2 : is_command_matched command owner r = false :=
        Bool.of_not_eq_true hr
      constructor
      · rw [match_command, if_neg hr, ih.1]
        constructor
        · intro h pc hpc
          rcases List.mem_cons.1 hpc with h1 | h2
          · rw [h1]
            exact hr2
          · exact h pc h2
        · intro h pc hpc
          exact h pc (List.mem_cons_of_mem r hpc)
      · intro pc h
        rw [match_command, if_neg hr] at h
        obtain ⟨i, hi, hgi, hm, hmin⟩ := ih.2 pc h
        refine ⟨i + 1, Nat.succ_lt_succ hi, by simpa using hgi, hm, ?_⟩
        intro j hj q hq
        cases j with
        | zero =>
          simp at hq
          rw [← hq]
          exact hr2
        | succ j2 =>
          exact hmin j2 (Nat.lt_of_succ_lt_succ hj) q (by simpa using hq)

/-- Claim C7 witness: with a non-matching rule first, the second rule is
returned, and the first-match characterization holds for it. -/
theorem ordered_first_match_witness :
    ∃ i, i < ([pcRegex, pcSimple] : List ProcessConfig).length ∧
      ([pcRegex, pcSimple] : List ProcessConfig)[i]? = some pcSimple ∧
      is_command_matched "/bin/x -a".data "root".data pcSimple = true ∧
      ∀ j, j < i → ∀ q, ([pcRegex, pcSimple] : List ProcessConfig)[j]? = some q →
        is_command_matched "/bin/x -a".data "root".data q = false :=
  (ordered_first_match [pcRegex, pcSimple] "/bin/x -a".data "root".data).2
    pcSimple (by decide)

/-! ### Claim theorems: detection loop -/

/-- The collected `HashSet` difference is the set difference. -/
lemma hashset_difference_eq_sdiff (current previous : Finset Nat) :
    hashset_difference current previous = current \ previous := by
  ext x
  simp [hashset_difference, Finset.mem_sdiff, Finset.mem_filter]

/-- Every event of one pid dispatch concerns that pid. -/
lemma dispatch_pid_pidOf (env : PidEnv) (pid : Nat) (e : LoopEvent)
    (h : e ∈ dispatch_pid env pid) : e.pidOf = pid := by
  unfold dispatch_pid at h
  cases hcm : env.cmdOf pid with
  | none =>
    rw [hcm] at h
    simp at h
    rw [h]
    rfl
  | some cmd =>
    rw [hcm] at h
    cases how : env.ownerOf pid with
    | none =>
      rw [how] at h
      simp at h
      rw [h]
      rfl
    | some ow =>
      rw [how] at h
      dsimp only at h
      cases hmc : match_command env.rules cmd ow with
      | none =>
        rw [hmc] at h
        simp at h
      | some pc =>
        rw [hmc] at h
        simp at h
        rcases h with h | h <;> rw [h] <;> rfl

/-- Every event of a successful cycle concerns a dispatched pid. -/
lemma cycle_events_pid (env : PidEnv) (previous current : Finset Nat)
    (e : LoopEvent)
    (h : e ∈ (event_loop_cycle env previous (.ok current)).events) :
    e.pidOf ∈ (event_loop_cycle env previous (.ok current)).dispatched := by
  simp only [event_loop_cycle] at h ⊢
  rw [List.mem_flatMap] at h
  obtain ⟨pid, hpid, he⟩ := h
  rw [dispatch_pid_pidOf env pid e he]
  exact (Finset.mem_sort _).1 hpid

/-- A pid carried in `previous_pids` is not dispatched in any cycle of a
run whose scans all keep it alive. -/
lemma run_not_dispatched (env : PidEnv) (pid : Nat) :
    ∀ (scans : List (Except Unit (Finset Nat))) (previous : Finset Nat),
      pid ∈ previous → (∀ s ∈ scans, scanKeeps pid s = true) →
      ∀ out ∈ event_loop_run env previous scans, pid ∉ out.dispatched := by
  intro scans
  induction scans with
  | nil =>
    intro previous _ _ out hout
    simp [event_loop_run] at hout
  | cons s rest ih =>
    intro previous hp hs out hout
    simp only [event_loop_run, List.mem_cons] at hout
    rcases hout with h | h
    · rw [h]
      cases s with
      | error e => simp [event_loop_cycle]
      | ok current =>
        simp only [event_loop_cycle]
        rw [hashset_difference_eq_sdiff]
        simp [Finset.mem_sdiff, hp]
    · have hnext : pid ∈ (event_loop_cycle env previous s).newPrevious := by
        cases s with
        | error e => simpa [event_loop_cycle] using hp
        | ok current =>
          have hk := hs (.ok current) (List.mem_cons_self _ _)
          simp [scanKeeps] at hk
          simpa [event_loop_cycle] using hk
      exact ih (event_loop_cycle env previous s).newPrevious hnext
        (fun s2 hs2 => hs s2 (List.mem_cons_of_mem s hs2)) out h

/-- Claim C1 (recording the actual behaviour of the code): a cycle whose
process enumeration fails reports the error, dispatches nothing, leaves
`previous_pids` unchanged — and, because the error arm executes
`continue`, it never reaches `tokio::time::sleep`: `slept = false`, a
direct retry with no delay, contrary to the specified behaviour. -/
theorem enumeration_failure_skips_sleep (env : PidEnv)
    (previous : Finset Nat) :
    (event_loop_cycle env previous (.error ())).reportedError = true ∧
    (event_loop_cycle env previous (.error ())).dispatched = ∅ ∧
    (event_loop_cycle env previous (.error ())).events = [] ∧
    (event_loop_cycle env previous (.error ())).newPrevious = previous ∧
    (event_loop_cycle env previous (.error ())).slept = false :=
  ⟨rfl, rfl, rfl, rfl, rfl⟩

/-- Claim C3: the dispatched set of a successful cycle is exactly
`current \ previous`; a pid of the previous snapshot is neither dispatched
nor the subject of any event; and on `{1,2,3}` → `{2,3,4}` exactly `{4}`
is dispatched. -/
theorem dispatched_eq_sdiff :
    (∀ (env : PidEnv) (previous current : Finset Nat),
      (event_loop_cycle env previous (.ok current)).dispatched =
        current \ previous)
    ∧ (∀ (env : PidEnv) (previous current : Finset Nat) (pid : Nat),
      pid ∈ previous →
      pid ∉ (event_loop_cycle env previous (.ok current)).dispatched ∧
      ∀ e ∈ (event_loop_cycle env previous (.ok current)).events,
        e.pidOf ≠ pid)
    ∧ (∀ env : PidEnv,
      (event_loop_cycle env {1, 2, 3} (.ok {2, 3, 4})).dispatched = {4}) := by
  have h1 : ∀ (env : PidEnv) (previous current : Finset Nat),
      (event_loop_cycle env previous (.ok current)).dispatched =
        current \ previous := by
    intro env previous current
    simp only [event_loop_cycle]
    exact hashset_difference_eq_sdiff current previous
  refine ⟨h1, ?_, ?_⟩
  · intro env previous current pid hp
    constructor
    · rw [h1]
      simp [Finset.mem_sdiff, hp]
    · intro e he heq
      have hd := cycle_events_pid env previous current e he
      rw [h1, heq] at hd
      rw [Finset.mem_sdiff] at hd
      exact hd.2 hp
  · intro env
    rw [h1]
    decide

/-- A trivial dispatch environment for concrete loop witnesses. -/
def envNull : PidEnv := ⟨fun _ => none, fun _ => none, []⟩

/-- Claim C3 witness: pid 1 disappeared between `{1,2,3}` and `{2,3,4}`
and is neither dispatched nor mentioned by any event. -/
theorem dispatched_eq_sdiff_witness :
    1 ∉ (event_loop_cycle envNull {1, 2, 3} (.ok {2, 3, 4})).dispatched ∧
    ∀ e ∈ (event_loop_cycle envNull {1, 2, 3} (.ok {2, 3, 4})).events,
      e.pidOf ≠ 1 :=
  dispatched_eq_sdiff.2.1 envNull {1, 2, 3} {2, 3, 4} 1 (by decide)

/-- Claim C4: `previous_pids` becomes the just-scanned snapshot,
independently of every per-pid dispatch outcome, and a pid carried in the
previous snapshot is never dispatched again while it stays alive. -/
theorem previous_update_no_redispatch :
    (∀ (env : PidEnv) (previous current : Finset Nat),
      (event_loop_cycle env previous (.ok current)).newPrevious = current)
    ∧ (∀ (env env2 : PidEnv) (previous : Finset Nat)
        (scan : Except Unit (Finset Nat)),
      (event_loop_cycle env previous scan).newPrevious =
        (event_loop_cycle env2 previous scan).newPrevious)
    ∧ (∀ (env : PidEnv) (scans : List (Except Unit (Finset Nat)))
        (previous : Finset Nat) (pid : Nat),
      pid ∈ previous → (∀ s ∈ scans, scanKeeps pid s = true) →
      ∀ out ∈ event_loop_run env previous scans, pid ∉ out.dispatched) := by
  refine ⟨fun env previous current => rfl, ?_, ?_⟩
  · intro env env2 previous scan
    cases scan <;> rfl
  · intro env scans previous pid hp hs
    exact run_not_dispatched env pid scans previous hp hs

/-- Claim C4 witness: pid 5, already in the previous snapshot, is not
dispatched in any of three subsequent cycles (including an enumeration
failure in the middle). -/
theorem previous_update_no_redispatch_witness :
    ∀ out ∈ event_loop_run envNull {5}
      [.ok {5, 6}, .error (), .ok {5}], (5 : Nat) ∉ out.dispatched :=
  previous_update_no_redispatch.2.2 envNull
    [.ok {5, 6}, .error (), .ok {5}] {5} 5 (by decide) (by decide)

/-! ### Claim theorems: owner resolution -/

/-- Claim C2: owner resolution returns `none` whenever the owning
identity cannot be determined (unreadable status file, missing or
unparsable `Uid:` line, or a failing user-database lookup), and maps
uid 0 to the stable name `"root"` even when the user-database lookup
yields an identity with no named user. -/
theorem owner_resolution_spec (status : Option (List Char))
    (db : Nat → Except Unit (Option (List Char))) :
    (status = none → get_owner_for_pid status db = none)
    ∧ (∀ contents, status = some contents → extract_uid contents = none →
      get_owner_for_pid status db = none)
    ∧ (∀ contents uid, status = some contents →
      extract_uid contents = some uid → db uid = .error () →
      get_owner_for_pid status db = none)
    ∧ (∀ contents, status = some contents → extract_uid contents = some 0 →
      db 0 = .ok none →
      get_owner_for_pid status db = some "root".data) := by
  refine ⟨?_, ?_, ?_, ?_⟩
  · intro h
    rw [h]
    rfl
  · intro contents hs hu
    rw [hs]
    simp [get_owner_for_pid, hu]
  · intro contents uid hs hu hdb
    rw [hs]
    simp [get_owner_for_pid, hu, hdb]
  · intro contents hs hu hdb
    rw [hs]
    simp [get_owner_for_pid, hu, hdb]

/-- A `/proc/[pid]/status` excerpt owned by uid 0. -/
def statusRootUid : List Char :=
  "Name:\tinit\nUid:\t0\t0\t0\t0\nGid:\t0\t0\t0\t0".data

/-- A user database whose lookups succeed but name no user. -/
def dbNameless : Nat → Except Unit (Option (List Char)) := fun _ => .ok none

/-- Claim C2 witness: a nameless uid-0 lookup resolves to `"root"`, and a
missing status file resolves to `none`. -/
theorem owner_resolution_spec_witness :
    get_owner_for_pid (some statusRootUid) dbNameless = some "root".data ∧
    get_owner_for_pid none dbNameless = none :=
  ⟨(owner_resolution_spec (some statusRootUid) dbNameless).2.2.2
      statusRootUid rfl (by decide) rfl,
   (owner_resolution_spec none dbNameless).1 rfl⟩

/-! ### Claim theorems: priority adjuster -/

/-- Claim C8: when the current nice value equals the target, the adjuster
issues no OS mutation call, leaves the OS untouched and emits only
debug-severity events; consequently two successive public calls with the
same target on a process that gets changed to that target issue exactly
one mutation call in total. -/
theorem adjuster_idempotent (s : OsState) (pid : Nat)
    (process_config : ProcessConfig) :
    (s.alive pid = true → s.statOk pid = true →
      s.nice pid = process_config.nice →
      (try_check_and_adjust_nice_value s pid process_config).2.1 = [] ∧
      (try_check_and_adjust_nice_value s pid process_config).1 = s ∧
      ∀ e ∈ (try_check_and_adjust_nice_value s pid process_config).2.2.1,
        e.sev = Sev.deb)
    ∧ (s.alive pid = true → s.statOk pid = true → s.setOk pid = true →
      s.nice pid ≠ process_config.nice →
      (check_and_adjust_nice_value s pid process_config).2.1 =
        [⟨pid, process_config.nice⟩] ∧
      (check_and_adjust_nice_value
          (check_and_adjust_nice_value s pid process_config).1
          pid process_config).2.1 = []) := by
  constructor
  · intro ha hst heq
    have hred :
        try_check_and_adjust_nice_value s pid process_config =
          (s, [], [.debFetchingProcess pid, .debFetchingNice pid,
            .debCurrentVsExpected pid (s.nice pid) process_config.nice,
            .debAlreadyCorrect pid (s.nice pid)], .ok ()) := by
      simp [try_check_and_adjust_nice_value, get_process,
        get_current_nice_value, ha, hst, heq]
    rw [hred]
    refine ⟨rfl, rfl, ?_⟩
    intro e he
    simp at he
    rcases he with h | h | h | h <;> rw [h] <;> rfl
  · intro ha hst hset hne
    have hred :
        check_and_adjust_nice_value s pid process_config =
          ({ s with nice := fun q => if q = pid then process_config.nice
              else s.nice q },
            [⟨pid, process_config.nice⟩],
            [.debStarting pid, .debFetchingProcess pid, .debFetchingNice pid,
              .debCurrentVsExpected pid (s.nice pid) process_config.nice,
              .infoMismatch pid (s.nice pid) process_config.nice,
              .debAdjusting pid, .debAttemptSet pid process_config.nice,
              .infoAdjusted pid process_config.nice, .debFinished pid]) := by
      simp [check_and_adjust_nice_value, try_check_and_adjust_nice_value,
        get_process, get_current_nice_value, adjust_nice_value,
        os_setpriority, ha, hst, hset, hne]
    rw [hred]
    refine ⟨rfl, ?_⟩
    simp [check_and_adjust_nice_value, try_check_and_adjust_nice_value,
      get_process, get_current_nice_value, ha, hst]

/-- OS fixtures for the adjuster witnesses. -/
def osAllOk : OsState := ⟨fun _ => true, fun _ => true, fun _ => 5, fun _ => true⟩

def osDead : OsState := ⟨fun _ => false, fun _ => true, fun _ => 5, fun _ => true⟩

def osSetFail : OsState := ⟨fun _ => true, fun _ => true, fun _ => 5, fun _ => false⟩

/-- A rule targeting nice 3 for the witnesses. -/
def pcNice3 : ProcessConfig :=
  ⟨"job".data, none, "/usr/bin/job".data, 3, ⟨"simple".data, none, none⟩⟩

/-- A rule targeting nice 5 (the fixtures' current value). -/
def pcNice5 : ProcessConfig :=
  ⟨"job".data, none, "/usr/bin/job".data, 5, ⟨"simple".data, none, none⟩⟩

/-- Claim C8 witness: an already-correct process yields no mutation call,
and two successive calls on a mismatching process yield exactly one. -/
theorem adjuster_idempotent_witness :
    ((try_check_and_adjust_nice_value osAllOk 7 pcNice5).2.1 = [] ∧
      (try_check_and_adjust_nice_value osAllOk 7 pcNice5).1 = osAllOk ∧
      ∀ e ∈ (try_check_and_adjust_nice_value osAllOk 7 pcNice5).2.2.1,
        e.sev = Sev.deb) ∧
    ((check_and_adjust_nice_value osAllOk 7 pcNice3).2.1 = [⟨7, 3⟩] ∧
      (check_and_adjust_nice_value
          (check_and_adjust_nice_value osAllOk 7 pcNice3).1
          7 pcNice3).2.1 = []) :=
  ⟨(adjuster_idempotent osAllOk 7 pcNice5).1 rfl rfl rfl,
   (adjuster_idempotent osAllOk 7 pcNice3).2 rfl rfl rfl (by decide)⟩

/-- The public adjuster entry point either leaves the OS untouched or
updates exactly the target pid's nice value. -/
lemma check_state_cases (s : OsState) (pid : Nat)
    (process_config : ProcessConfig) :
    (check_and_adjust_nice_value s pid process_config).1 = s ∨
    (check_and_adjust_nice_value s pid process_config).1 =
      { s with nice := fun q => if q = pid then process_config.nice
          else s.nice q } := by
  by_cases ha : s.alive pid = true
  · by_cases hst : s.statOk pid = true
    · by_cases hne : s.nice pid = process_config.nice
      · left
        simp [check_and_adjust_nice_value, try_check_and_adjust_nice_value,
          get_process, get_current_nice_value, ha, hst, hne]
      · by_cases hset : s.setOk pid = true
        · right
          simp [check_and_adjust_nice_value, try_check_and_adjust_nice_value,
            get_process, get_current_nice_value, adjust_nice_value,
            os_setpriority, ha, hst, hne, hset]
        · left
          simp [check_and_adjust_nice_value, try_check_and_adjust_nice_value,
            get_process, get_current_nice_value, adjust_nice_value,
            os_setpriority, ha, hst, hne, hset]
    · left
      simp [check_and_adjust_nice_value, try_check_and_adjust_nice_value,
        get_process, get_current_nice_value, ha, hst]
  · left
    simp [check_and_adjust_nice_value, try_check_and_adjust_nice_value,
      get_process, ha]

/-- Claim C9: every per-process failure (unreadable process, unreadable
current priority, failed OS set call) is contained: the entry point leaves
the OS state of every other pid untouched in all cases, and on each
failure it issues at most the single attempted call, reports the failure,
and returns with the state intact. -/
theorem adjuster_error_containment (s : OsState) (pid : Nat)
    (process_config : ProcessConfig) :
    (∀ q, q ≠ pid →
      (check_and_adjust_nice_value s pid process_config).1.nice q = s.nice q)
    ∧ ((check_and_adjust_nice_value s pid process_config).1.alive = s.alive ∧
      (check_and_adjust_nice_value s pid process_config).1.statOk = s.statOk ∧
      (check_and_adjust_nice_value s pid process_config).1.setOk = s.setOk)
    ∧ (s.alive pid = false →
      (check_and_adjust_nice_value s pid process_config).1 = s ∧
      (check_and_adjust_nice_value s pid process_config).2.1 = [] ∧
      AdjEvent.warnCheckFailed pid ∈
        (check_and_adjust_nice_value s pid process_config).2.2)
    ∧ (s.alive pid = true → s.statOk pid = false →
      (check_and_adjust_nice_value s pid process_config).1 = s ∧
      (check_and_adjust_nice_value s pid process_config).2.1 = [] ∧
      AdjEvent.warnCheckFailed pid ∈
        (check_and_adjust_nice_value s pid process_config).2.2)
    ∧ (s.alive pid = true → s.statOk pid = true →
      s.nice pid ≠ process_config.nice → s.setOk pid = false →
      (check_and_adjust_nice_value s pid process_config).1 = s ∧
      (check_and_adjust_nice_value s pid process_config).2.1 =
        [⟨pid, process_config.nice⟩] ∧
      AdjEvent.errSetFailed pid ∈
        (check_and_adjust_nice_value s pid process_config).2.2 ∧
      AdjEvent.warnCheckFailed pid ∈
        (check_and_adjust_nice_value s pid process_config).2.2) := by
  refine ⟨?_, ?_, ?_, ?_, ?_⟩
  · intro q hq
    rcases check_state_cases s pid process_config with h | h
    · rw [h]
    · rw [h]
      simp [hq]
  · rcases check_state_cases s pid process_config with h | h <;> rw [h] <;>
      exact ⟨rfl, rfl, rfl⟩
  · intro ha
    simp [check_and_adjust_nice_value, try_check_and_adjust_nice_value,
      get_process, ha]
  · intro ha hst
    simp [check_and_adjust_nice_value, try_check_and_adjust_nice_value,
      get_process, get_current_nice_value, ha, hst]
  · intro ha hst hne hset
    simp [check_and_adjust_nice_value, try_check_and_adjust_nice_value,
      get_process, get_current_nice_value, adjust_nice_value,
      os_setpriority, ha, hst, hne, hset]

/-- Claim C9 witness: containment at a dead process, and at a process
whose OS set call fails. -/
theorem adjuster_error_containment_witness :
    ((check_and_adjust_nice_value osAllOk 7 pcNice3).1.nice 9 =
      osAllOk.nice 9) ∧
    ((check_and_adjust_nice_value osDead 7 pcNice3).1 = osDead ∧
      (check_and_adjust_nice_value osDead 7 pcNice3).2.1 = [] ∧
      AdjEvent.warnCheckFailed 7 ∈
        (check_and_adjust_nice_value osDead 7 pcNice3).2.2) ∧
    ((check_and_adjust_nice_value osSetFail 7 pcNice3).1 = osSetFail ∧
      (check_and_adjust_nice_value osSetFail 7 pcNice3).2.1 = [⟨7, 3⟩] ∧
      AdjEvent.errSetFailed 7 ∈
        (check_and_adjust_nice_value osSetFail 7 pcNice3).2.2 ∧
      AdjEvent.warnCheckFailed 7 ∈
        (check_and_adjust_nice_value osSetFail 7 pcNice3).2.2) :=
  ⟨(adjuster_error_containment osAllOk 7 pcNice3).1 9 (by decide),
   (adjuster_error_containment osDead 7 pcNice3).2.2.1 rfl,
   (adjuster_error_containment osSetFail 7 pcNice3).2.2.2.2 rfl rfl
     (by decide) rfl⟩

end Reniced
